import Mathlib

/-!
Verification of the mamba package-manager core (transaction, cache,
conflict-map, pool and prefix-data components) against its
natural-language specification.  The definitions below are shallow
embeddings of the corresponding C++ functions; machine integers are
modelled as `Nat`, fallible code as `Except`, and file-system or solver
state as explicit parameters.
-/

namespace Mamba

/-! ### Tarball validation (`PackageDownloadExtractTarget::validate`)

Embedding of `src/libmamba/src/core/transaction.cpp` lines 133-185.
`m_expected_size` is a `std::size_t`; the C++ guard `if (m_expected_size && ...)`
treats `0` as "no expected size known".  The recorded checksums are strings,
empty when not recorded.  The computed digests (`validation::sha256sum`,
`validation::md5sum`) are passed in as the values those calls would return,
so that "the md5 is never consulted" is expressible as independence of the
result from the md5 arguments. -/

inductive VALIDATION_RESULT where
  | UNDEFINED
  | VALID
  | SHA256_ERROR
  | MD5SUM_ERROR
  | SIZE_ERROR
  | EXTRACT_ERROR
  deriving DecidableEq, Repr

open VALIDATION_RESULT

/-- Shallow embedding of `PackageDownloadExtractTarget::validate`.
The function starts from `VALID`, returns `SIZE_ERROR` when an expected
size is known and the downloaded size differs, then checks `sha256`
(returning early whether it matches or not), and only if no sha256 is
recorded checks `md5`. -/
def validate (expected_size downloaded_size : Nat)
    (sha256_rec sha256_act md5_rec md5_act : String) : VALIDATION_RESULT :=
  if expected_size ≠ 0 ∧ downloaded_size ≠ expected_size then
    SIZE_ERROR
  else if sha256_rec ≠ "" then
    if sha256_rec ≠ sha256_act then SHA256_ERROR else VALID
  else if md5_rec ≠ "" then
    if md5_rec ≠ md5_act then MD5SUM_ERROR else VALID
  else
    VALID

/-- The specification's validity predicate, written from the spec's words:
"Tarball valid iff size matches (if known) and either `sha256` matches the
recorded digest or, lacking sha256, `md5` matches." -/
def tarballValidSpec (expected_size downloaded_size : Nat)
    (sha256_rec sha256_act md5_rec md5_act : String) : Prop :=
  (expected_size ≠ 0 → downloaded_size = expected_size)
  ∧ (if sha256_rec ≠ "" then sha256_rec = sha256_act
     else md5_rec ≠ "" → md5_rec = md5_act)

instance (e d : Nat) (sr sa mr ma : String) :
    Decidable (tarballValidSpec e d sr sa mr ma) := by
  unfold tarballValidSpec
  infer_instance

/-! ### Solver-state check (`MTransaction::MTransaction(MPool&, MSolver&, ...)`)

Embedding of `src/libmamba/src/core/transaction.cpp` lines 588-599: the
constructor throws before building any transaction state when the solver
has not been solved. -/

structure MSolver where
  is_solved : Bool
  deriving DecidableEq, Repr

/-- Shallow embedding of the guard at the top of
`MTransaction::MTransaction(MPool&, MSolver&, MultiPackageCache&)`:
when `solver.is_solved()` is false the constructor throws
`std::runtime_error` before any member beyond the references is set; the
`Unit` payload of the `ok` branch stands for the construction that only
happens afterwards. -/
def mtransactionFromSolver (solver : MSolver) : Except String Unit :=
  if ¬ solver.is_solved then
    Except.error "Cannot create transaction without calling solver.solve() first."
  else
    Except.ok ()

/-! ### Explicit spec URL parsing (`create_explicit_transaction_from_urls`)

Embedding of `src/libmamba/src/core/transaction.cpp` lines 1685-1715.
Strings are modelled as `List Char` so that splitting at the first `'#'`
(`u.find_first_of('#')` followed by the two `substr` calls) becomes
`takeWhile`/`dropWhile`. -/

/-- Embedding of the C++ `starts_with(s, p)` helper on character lists:
does `s` begin with `p`? -/
def starts_with : List Char → List Char → Bool
  | _, [] => true
  | [], _ :: _ => false
  | c :: cs, p :: ps => c == p && starts_with cs ps

/-- The outcome of parsing one explicit URL: the match-spec part before the
fragment and the checksum brackets (`ms.brackets["sha256"]` /
`ms.brackets["md5"]`) that the loop body fills in. -/
structure ExplicitSpecParse where
  spec_url : List Char
  sha256 : Option (List Char)
  md5 : Option (List Char)
  deriving DecidableEq, Repr

/-- Shallow embedding of the loop body of
`create_explicit_transaction_from_urls`: `hash = u.find_first_of('#')`,
`MatchSpec ms(u.substr(0, hash))`, and when a fragment exists,
`sha256:`-led fragments fill `brackets["sha256"]` with the remainder
(`s_hash.substr(7)`), any other fragment fills `brackets["md5"]` whole. -/
def parse_explicit_url (u : List Char) : ExplicitSpecParse :=
  match u.dropWhile (fun c => c != '#') with
  | [] => ⟨u.takeWhile (fun c => c != '#'), none, none⟩
  | _ :: s_hash =>
    if starts_with s_hash ("sha256:".toList) then
      ⟨u.takeWhile (fun c => c != '#'), some (s_hash.drop 7), none⟩
    else
      ⟨u.takeWhile (fun c => c != '#'), none, some s_hash⟩

/-! ### LINK / FETCH reporting (`MTransaction::log_json`, `need_pkg_download`)

Embedding of `src/libmamba/src/core/transaction.cpp` lines 38-42 and
1150-1188.  A `MultiPackageCache` is modelled by its two query functions
returning a path (`""` meaning `fs::u8path` is empty, i.e. no validated
artifact found in any cache). -/

/-- Embedding of the free function `need_pkg_download`: a package must be
downloaded iff neither a validated extracted directory nor a validated
tarball is found in any cache. -/
def need_pkg_download {α : Type} (get_extracted_dir_path get_tarball_path : α → String)
    (pkg : α) : Bool :=
  get_extracted_dir_path pkg == "" && get_tarball_path pkg == ""

/-- Shallow embedding of the classification loop of `MTransaction::log_json`:
walks `m_to_install` appending each solvable to `to_link` always, and to
`to_fetch` as well exactly when `need_pkg_download` holds; `m_to_remove`
goes to `to_unlink`.  Returns `(to_fetch, to_link, to_unlink)`. -/
def log_json_fetch_link {α : Type} (to_install : List α)
    (get_extracted_dir_path get_tarball_path : α → String) :
    List α × List α :=
  to_install.foldl
    (fun (acc : List α × List α) s =>
      if ¬ need_pkg_download get_extracted_dir_path get_tarball_path s then
        (acc.1, acc.2 ++ [s])
      else
        (acc.1 ++ [s], acc.2 ++ [s]))
    ([], [])

def log_json {α : Type} (to_install to_remove : List α)
    (get_extracted_dir_path get_tarball_path : α → String) :
    List α × List α × List α :=
  ((log_json_fetch_link to_install get_extracted_dir_path get_tarball_path).1,
   (log_json_fetch_link to_install get_extracted_dir_path get_tarball_path).2,
   to_remove)

/-! ### Download / extract scheduling (`PackageDownloadExtractTarget::target`,
`finalize_callback`, `validate_extract`)

Embedding of `src/libmamba/src/core/transaction.cpp` lines 304-337, 339-359
and 392-452.  The scheduling decision of `target` is summarised by which of
the three pipeline stages is set in motion. -/

/-- What `PackageDownloadExtractTarget::target` decides for one package:
whether a non-null `DownloadTarget*` is returned (so the caller adds it to
the multi-download), whether an extract task (`extract_from_cache`) is
scheduled directly on the executor, and whether the target is immediately
marked finished (fully cached case). -/
structure TargetDecision where
  returns_download_target : Bool
  schedules_extract_now : Bool
  finished_immediately : Bool
  deriving DecidableEq, Repr

/-- Shallow embedding of `PackageDownloadExtractTarget::target`: with a
validated extracted directory the target finishes at once (no download, no
extract); lacking it but with a validated tarball, `extract_from_cache` is
scheduled and no download target is returned; otherwise a `DownloadTarget`
is created and returned. -/
def pdet_target (extracted_cache tarball_cache : String) : TargetDecision :=
  if extracted_cache = "" then
    if tarball_cache ≠ "" then
      ⟨false, true, false⟩
    else
      ⟨true, false, false⟩
  else
    ⟨false, false, true⟩

/-- Shallow embedding of `PackageDownloadExtractTarget::finalize_callback`:
on an HTTP status ≥ 400 the callback fails without scheduling anything;
otherwise it schedules `validate_extract` on the executor and reports
success.  Returns `(callback result, validate_extract scheduled)`. -/
def finalize_callback (http_status : Nat) : Bool × Bool :=
  if 400 ≤ http_status then (false, false) else (true, true)

/-- Shallow embedding of `PackageDownloadExtractTarget::validate_extract`:
runs validation first and runs `extract` only when the validation result is
`VALID`.  Returns whether extraction runs. -/
def validate_extract_runs_extract (v : VALIDATION_RESULT) : Bool :=
  if v = VALID then true else false

/-! ### Removing unmatched specs
(`MTransaction::MTransaction(MPool&, remove, install, caches)`)

Embedding of `src/libmamba/src/core/transaction.cpp` lines 512-543.  The
pool is a list of solvable ids, and `pool_conda_matchspec` plus
`selection_solvables` are summarised by a matching predicate from spec
strings to solvable ids (an id of `0`, i.e. an unparsable spec, simply
matches nothing, exactly as the empty `job` queue would). -/

/-- Embedding of `selection_solvables` on the jobs built from one remove
spec: all solvables of the pool matched by the spec. -/
def selection_solvables (pool : List Nat) (spec_match : String → Nat → Bool)
    (s : String) : List Nat :=
  pool.filter (spec_match s)

/-- One iteration of the remove-spec loop: a spec whose selection is empty
goes to `not_found`, otherwise every matched solvable id is pushed negated
onto `decision` (negative means removal). -/
def remove_specs_step (pool : List Nat) (spec_match : String → Nat → Bool)
    (acc : List String × List Int) (s : String) : List String × List Int :=
  if (selection_solvables pool spec_match s).isEmpty then
    (acc.1 ++ [s], acc.2)
  else
    (acc.1, acc.2 ++ (selection_solvables pool spec_match s).map (fun el => -(el : Int)))

/-- The remove-spec loop of the constructor: walks `specs_to_remove`
accumulating `not_found` (specs whose selection is empty) and `decision`
(negated solvable ids of every match, meaning removal). -/
def remove_specs_scan (pool : List Nat) (spec_match : String → Nat → Bool)
    (specs_to_remove : List String) : List String × List Int :=
  specs_to_remove.foldl (remove_specs_step pool spec_match) ([], [])

/-- Shallow embedding of the removal part of
`MTransaction::MTransaction(MPool&, specs_to_remove, specs_to_install,
caches)`: after the loop, a non-empty `not_found` throws
`"Could not find packages to remove:"` listing every missing spec, before
`transaction_create_decisionq` runs; otherwise the negative decisions are
handed to the transaction. -/
def mtransaction_remove (pool : List Nat) (spec_match : String → Nat → Bool)
    (specs_to_remove : List String) : Except (List String) (List Int) :=
  if (remove_specs_scan pool spec_match specs_to_remove).1 ≠ [] then
    Except.error (remove_specs_scan pool spec_match specs_to_remove).1
  else
    Except.ok (remove_specs_scan pool spec_match specs_to_remove).2

/-! ### Rollback of an interrupted execution
(`TransactionRollback`, `MTransaction::execute`)

Embedding of `src/libmamba/src/core/transaction.cpp` lines 923-956 (the
`TransactionRollback` class) and lines 999-1084 (the execution loop that
records each performed operation and, on interruption, calls `rollback()`).
An operation is identified by its kind and the package it acts on; `undo`
side effects are summarised by the order in which operations are undone. -/

inductive OpKind where
  | link
  | unlink
  deriving DecidableEq, Repr

structure TransactionOp where
  kind : OpKind
  pkg : Nat
  deriving DecidableEq, Repr

/-- Embedding of the `TransactionRollback` class state: two separate
per-kind stacks (`std::stack<UnlinkPackage>` and `std::stack<LinkPackage>`),
the head of each list being the stack top. -/
structure TransactionRollback where
  m_unlink_stack : List TransactionOp
  m_link_stack : List TransactionOp
  deriving DecidableEq, Repr

/-- Embedding of the two `TransactionRollback::record` overloads: an unlink
operation is pushed on `m_unlink_stack`, a link operation on
`m_link_stack`. -/
def rollback_record (r : TransactionRollback) (op : TransactionOp) : TransactionRollback :=
  match op.kind with
  | OpKind.unlink => { r with m_unlink_stack := op :: r.m_unlink_stack }
  | OpKind.link => { r with m_link_stack := op :: r.m_link_stack }

/-- Embedding of `TransactionRollback::rollback`: the sequence of `undo`
calls it performs, first popping the whole link stack, then the whole
unlink stack. -/
def rollback_run (r : TransactionRollback) : List TransactionOp :=
  r.m_link_stack ++ r.m_unlink_stack

/-- The `undo` order produced when execution recorded `executed` (in
execution order) and is then interrupted: the execute loop records each
operation right after performing it, and interruption triggers
`rollback.rollback()`. -/
def rollback_undo_order (executed : List TransactionOp) : List TransactionOp :=
  rollback_run (executed.foldl rollback_record ⟨[], []⟩)

/-- Modelled from the spec: the design note's rollback discipline, in which
"the rollback stack is a single ordered sequence of `TransactionOp`" popped
on interruption so that operations are undone in exact reverse order of
execution.  Used only to compare against `rollback_undo_order`. -/
def single_stack_undo_order (executed : List TransactionOp) : List TransactionOp :=
  executed.reverse

/-- The plan steps walked by `MTransaction::execute` (lines 999-1077):
`SOLVER_TRANSACTION_INSTALL` links, `SOLVER_TRANSACTION_ERASE` unlinks,
and the changed/upgraded/downgraded/reinstalled class unlinks the old
package then links the new one. -/
inductive Step where
  | install (p : Nat)
  | erase (p : Nat)
  | change (old_pkg new_pkg : Nat)
  deriving DecidableEq, Repr

/-- The operations one step performs and records, in order. -/
def step_ops : Step → List TransactionOp
  | Step.install p => [⟨OpKind.link, p⟩]
  | Step.erase p => [⟨OpKind.unlink, p⟩]
  | Step.change a b => [⟨OpKind.unlink, a⟩, ⟨OpKind.link, b⟩]

/-- All operations performed and recorded by the execution loop over the
given steps, in execution order. -/
def executed_ops (steps : List Step) : List TransactionOp :=
  (steps.map step_ops).flatten

/-! ### `conflict_map`

Modelled from the spec: the implementation of `conflict_map<T>` (declared
in `satisfiability_error.hpp`) is not part of the sources, only its test
suite (`src/libmamba/tests/src/core/test_satisfiability_error.cpp` lines
32-75) is.  Per the spec it is "a symmetric binary relation on T with
operations `add(a,b)`, `remove(a,b)`, `remove(a)` (drop all edges incident
to `a`), `in_conflict(a,b)`, `has_conflict(a)`", with self-conflicts
permitted.  The state is the list of directed pairs stored so far (each
edge stored in both directions, as an adjacency representation would);
symmetry is an invariant of the operations, not baked into the queries. -/

/-- Modelled from the spec: insert a directed pair if not already present. -/
def cm_ins (m : List (Nat × Nat)) (p : Nat × Nat) : List (Nat × Nat) :=
  if p ∈ m then m else m ++ [p]

/-- Modelled from the spec: `conflict_map::add(a, b)` records the edge in both directions
(a self-conflict `add(x,x)` stores the single pair `(x,x)`). -/
def cm_add (m : List (Nat × Nat)) (a b : Nat) : List (Nat × Nat) :=
  cm_ins (cm_ins m (a, b)) (b, a)

/-- Modelled from the spec: `conflict_map::remove(a, b)` drops the edge in both directions. -/
def cm_remove_pair (m : List (Nat × Nat)) (a b : Nat) : List (Nat × Nat) :=
  m.filter (fun p => p ≠ (a, b) ∧ p ≠ (b, a))

/-- Modelled from the spec: `conflict_map::remove(a)` drops all edges incident to `a`. -/
def cm_remove (m : List (Nat × Nat)) (a : Nat) : List (Nat × Nat) :=
  m.filter (fun p => p.1 ≠ a ∧ p.2 ≠ a)

/-- Modelled from the spec: `conflict_map::in_conflict(a, b)`. -/
def cm_in_conflict (m : List (Nat × Nat)) (a b : Nat) : Bool :=
  decide ((a, b) ∈ m)

/-- Modelled from the spec: `conflict_map::has_conflict(a)`: some edge leaves `a`. -/
def cm_has_conflict (m : List (Nat × Nat)) (a : Nat) : Bool :=
  m.any (fun p => p.1 == a)

/-- Modelled from the spec: a client-visible operation on a `conflict_map`. -/
inductive CmOp where
  | add (a b : Nat)
  | remove_pair (a b : Nat)
  | remove_all (a : Nat)
  deriving DecidableEq, Repr

def cm_apply (m : List (Nat × Nat)) : CmOp → List (Nat × Nat)
  | CmOp.add a b => cm_add m a b
  | CmOp.remove_pair a b => cm_remove_pair m a b
  | CmOp.remove_all a => cm_remove m a

/-- Modelled from the spec: the `conflict_map` reached from the default-constructed
(empty) map by a sequence of operations. -/
def cm_run (ops : List CmOp) : List (Nat × Nat) :=
  ops.foldl cm_apply []

/-! ### Pool what-provides index (`ObjPool`)

Modelled from the spec: the `ObjPool` wrapper implementation
(`solv-cpp/pool.hpp`/`.cpp`) is not part of the sources, only its test
suite (`src/unnamed/part_001`).  Per the spec the Pool keeps "a secondary
what-provides index `dep_id → ordered list of solvable_ids` built on
demand" by `create_whatprovides()` "from every repo's solvables", and the
index "must be rebuilt after any solvable addition before solving";
iterating it before creation is an error (the test expects
`std::runtime_error`).  Solvables carry the dependency ids they provide
(`add_self_provide` in the test); dep ids and solvable ids are
pool-interned integers. -/

/-- Modelled from the spec: a solvable as the what-provides index sees it,
its id and the interned dependency ids it provides. -/
structure SolvableRec where
  sid : Nat
  provides : List Nat
  deriving DecidableEq, Repr

/-- Modelled from the spec: the Pool state relevant to the what-provides
index: the solvables of all repos, and the index, absent until
`create_whatprovides` runs. -/
structure ObjPool where
  solvables : List SolvableRec
  whatprovides_index : Option (List (Nat × List Nat))
  deriving DecidableEq, Repr

/-- Modelled from the spec: append one solvable id under a dependency id in
the association-list index. -/
def wp_insert : List (Nat × List Nat) → Nat → Nat → List (Nat × List Nat)
  | [], d, sid => [(d, [sid])]
  | e :: rest, d, sid =>
    if e.1 = d then
      (e.1, e.2 ++ [sid]) :: rest
    else
      e :: wp_insert rest d sid

/-- Modelled from the spec: the ordered list of solvable ids the index
holds for a dependency id. -/
def wp_lookup : List (Nat × List Nat) → Nat → List Nat
  | [], _ => []
  | e :: rest, d => if e.1 = d then e.2 else wp_lookup rest d

/-- Modelled from the spec: build the what-provides index by walking every
solvable and registering its id under each dependency id it provides. -/
def build_whatprovides (solvs : List SolvableRec) : List (Nat × List Nat) :=
  solvs.foldl
    (fun idx s => s.provides.foldl (fun idx2 d => wp_insert idx2 d s.sid) idx)
    []

/-- Modelled from the spec: `ObjPool::create_whatprovides` builds/refreshes
the index from every repo's solvables. -/
def create_whatprovides (p : ObjPool) : ObjPool :=
  { p with whatprovides_index := some (build_whatprovides p.solvables) }

/-- Modelled from the spec: `ObjPool::for_each_whatprovides_id` raises
`std::runtime_error` when the index has not been created, and otherwise
iterates the indexed solvable ids for the dependency id.  The `ok` payload
lists the ids in iteration order. -/
def for_each_whatprovides_id (p : ObjPool) (dep : Nat) : Except String (List Nat) :=
  match p.whatprovides_index with
  | none => Except.error "Whatprovides index is not created."
  | some idx => Except.ok (wp_lookup idx dep)

/-! ### `PrefixData::sorted_records`

Embedding of `src/unnamed/part_000` lines 75-118: the function builds a
graph whose nodes are the installed records and adds, for every dependency
string whose parsed name is itself an installed package name, an edge from
the dependent record to that dependency, then emits the nodes through
`util::topological_sort_for_each_node_id`.  The graph utility and the
`MatchSpec` parser are not part of the sources; both are modelled from the
spec: `MatchSpec(dep).name` extracts the leading name token, and the sort
is the spec's "deterministic Kahn-style pass using names as tie-breakers"
emitting dependencies before dependents. -/

/-- An installed record as `sorted_records` uses it: its unique name and
its raw `depends` strings. -/
structure PkgRecord where
  name : String
  depends : List String
  deriving DecidableEq, Repr

/-- The characters after the first `"::"` of a list, or `none` when the
list contains no `"::"`. -/
def after_double_colon : List Char → Option (List Char)
  | ':' :: ':' :: rest => some rest
  | _ :: rest => after_double_colon rest
  | [] => none

/-- The leading `[channel::]name` token of a raw match-spec string
(`[channel::]name[version_spec][=build_string][bracket_kv,…]`), stopping
at a version, build or bracket delimiter. -/
def ms_name_token (dep : String) : List Char :=
  dep.toList.takeWhile
    (fun c => c != ' ' && c != '=' && c != '<' && c != '>' && c != '!'
      && c != '~' && c != '[')

/-- Modelled from the spec: `MatchSpec(dep).name` for a raw match-spec
string of the grammar `[channel::]name[version_spec][=build_string]
[bracket_kv,…]`: the leading token with the optional `channel::` prefix
dropped. -/
def ms_name (dep : String) : String :=
  String.mk ((after_double_colon (ms_name_token dep)).getD (ms_name_token dep))

/-- The names of the installed records (`name_to_node_id` keys). -/
def pkg_names (recs : List PkgRecord) : List String :=
  recs.map PkgRecord.name

/-- A record is ready to be emitted when each of its dependency-edge
targets (a dependency whose parsed name is an installed package) has
already been emitted. -/
def dep_ready (recs : List PkgRecord) (emitted : List String) (p : PkgRecord) : Bool :=
  p.depends.all
    (fun dep => decide (ms_name dep ∈ pkg_names recs → ms_name dep ∈ emitted))

/-- Modelled from the spec: the deterministic tie-breaker, picking the
candidate with the least name. -/
def pick_min_by_name : List PkgRecord → Option PkgRecord
  | [] => none
  | p :: rest =>
    match pick_min_by_name rest with
    | none => some p
    | some q => if p.name ≤ q.name then some p else some q

/-- Modelled from the spec: the Kahn-style pass.  At each step the
least-named ready node among the remaining ones is emitted; when none is
ready (a dependency cycle) the pass stops.  The fuel is the number of
records. -/
def topo_go (recs : List PkgRecord) : Nat → List PkgRecord → List PkgRecord → List PkgRecord
  | 0, emitted, _ => emitted
  | Nat.succ n, emitted, remaining =>
    match pick_min_by_name (remaining.filter (dep_ready recs (pkg_names emitted))) with
    | none => emitted
    | some p => topo_go recs n (emitted ++ [p]) (remaining.erase p)

/-- Embedding of `PrefixData::sorted_records` over the modelled sort. -/
def sorted_records (recs : List PkgRecord) : List PkgRecord :=
  topo_go recs recs.length [] recs

/-- Walks an output sequence checking that every record's installed
dependencies were emitted earlier (`seen` accumulates emitted names). -/
def topo_forward (recs : List PkgRecord) : List String → List PkgRecord → Bool
  | _, [] => true
  | seen, p :: rest =>
    dep_ready recs seen p && topo_forward recs (seen ++ [p.name]) rest

/-- The claim's property: the output is a topological order of the
installed packages, i.e. an enumeration of all of them in which every
package appears after all packages named in its `depends` list that are
themselves installed. -/
def is_topo_order (out recs : List PkgRecord) : Prop :=
  out.Perm recs ∧ topo_forward recs [] out = true

instance (out recs : List PkgRecord) : Decidable (is_topo_order out recs) := by
  unfold is_topo_order
  infer_instance

end Mamba

/-- C3: the tarball validation returns `VALID` exactly when the size matches
(whenever an expected size is known) and either the recorded sha256 matches
the computed sha256 or, when no sha256 is recorded, any recorded md5 matches
the computed md5; moreover when a sha256 is recorded the result does not
depend on the md5 values at all (the md5 is never consulted). -/
theorem C3_validate_valid_iff (e d : Nat) (sr sa mr ma : String) :
    (Mamba.validate e d sr sa mr ma = Mamba.VALIDATION_RESULT.VALID
      ↔ Mamba.tarballValidSpec e d sr sa mr ma)
    ∧ (sr ≠ "" → ∀ mr' ma',
        Mamba.validate e d sr sa mr ma = Mamba.validate e d sr sa mr' ma') := by
  constructor
  · unfold Mamba.validate Mamba.tarballValidSpec
    by_cases hs : e ≠ 0 ∧ d ≠ e
    · simp only [if_pos hs]
      constructor
      · intro h; cases h
      · rintro ⟨h1, -⟩
        exact absurd (h1 hs.1) hs.2
    · have hs' : e ≠ 0 → d = e := by
        intro he
        by_contra hd
        exact hs ⟨he, hd⟩
      rw [if_neg hs]
      by_cases hsr : sr ≠ ""
      · by_cases hm : sr = sa <;>
          simp only [if_pos hsr, hm, if_pos hsr] <;> simp [hsr, hm] <;> tauto
      · push_neg at hsr
        by_cases hmr : mr ≠ ""
        · by_cases hm : mr = ma <;> simp [hsr, hmr, hm] <;> tauto
        · push_neg at hmr
          simp [hsr, hmr] <;> tauto
  · intro hsr mr' ma'
    unfold Mamba.validate
    by_cases hs : e ≠ 0 ∧ d ≠ e
    · simp [if_pos hs]
    · simp only [if_neg hs, if_pos hsr]

/-- Witness for C3 at concrete inputs: expected size 5, downloaded 5,
recorded and computed sha256 both "abc", md5 values irrelevant. -/
theorem C3_validate_valid_iff_witness :
    (Mamba.validate 5 5 "abc" "abc" "x" "y" = Mamba.VALIDATION_RESULT.VALID
      ↔ Mamba.tarballValidSpec 5 5 "abc" "abc" "x" "y")
    ∧ ("abc" ≠ "" ∧
        Mamba.validate 5 5 "abc" "abc" "x" "y"
          = Mamba.validate 5 5 "abc" "abc" "p" "q") :=
  ⟨(C3_validate_valid_iff 5 5 "abc" "abc" "x" "y").1,
   by decide,
   (C3_validate_valid_iff 5 5 "abc" "abc" "x" "y").2 (by decide) "p" "q"⟩

/-- C10: constructing a transaction from a solver on which `solve()` has not
been run fails with the dedicated error message, and no transaction state is
produced (the constructor returns no `ok` payload). -/
theorem C10_unsolved_solver_errors (solver : Mamba.MSolver)
    (h : solver.is_solved = false) :
    Mamba.mtransactionFromSolver solver
      = Except.error "Cannot create transaction without calling solver.solve() first." := by
  unfold Mamba.mtransactionFromSolver
  rw [h]
  simp

/-- Witness for C10 on the concrete unsolved solver. -/
theorem C10_unsolved_solver_errors_witness :
    (Mamba.MSolver.mk false).is_solved = false ∧
      Mamba.mtransactionFromSolver (Mamba.MSolver.mk false)
        = Except.error "Cannot create transaction without calling solver.solve() first." :=
  ⟨rfl, C10_unsolved_solver_errors (Mamba.MSolver.mk false) rfl⟩

/-! Helper lemmas about splitting a character list at the first `'#'`. -/

theorem takeWhile_hash_of_not_mem (u : List Char) (h : '#' ∉ u) :
    u.takeWhile (fun c => c != '#') = u := by
  induction u with
  | nil => rfl
  | cons c cs ih =>
    simp only [List.mem_cons, not_or] at h
    have hc : c ≠ '#' := fun e => h.1 e.symm
    rw [List.takeWhile_cons, if_pos (by simp [hc]), ih h.2]

theorem dropWhile_hash_of_not_mem (u : List Char) (h : '#' ∉ u) :
    u.dropWhile (fun c => c != '#') = [] := by
  induction u with
  | nil => rfl
  | cons c cs ih =>
    simp only [List.mem_cons, not_or] at h
    have hc : c ≠ '#' := fun e => h.1 e.symm
    rw [List.dropWhile_cons, if_pos (by simp [hc]), ih h.2]

theorem takeWhile_hash_append (pre frag : List Char) (h : '#' ∉ pre) :
    (pre ++ '#' :: frag).takeWhile (fun c => c != '#') = pre := by
  induction pre with
  | nil => simp [List.takeWhile_cons]
  | cons c cs ih =>
    simp only [List.mem_cons, not_or] at h
    have hc : c ≠ '#' := fun e => h.1 e.symm
    rw [List.cons_append, List.takeWhile_cons, if_pos (by simp [hc]), ih h.2]

theorem dropWhile_hash_append (pre frag : List Char) (h : '#' ∉ pre) :
    (pre ++ '#' :: frag).dropWhile (fun c => c != '#') = '#' :: frag := by
  induction pre with
  | nil => simp [List.dropWhile_cons]
  | cons c cs ih =>
    simp only [List.mem_cons, not_or] at h
    have hc : c ≠ '#' := fun e => h.1 e.symm
    rw [List.cons_append, List.dropWhile_cons, if_pos (by simp [hc]), ih h.2]

/-- C8: parsing an explicit spec URL splits at the first `'#'`: without a
fragment neither checksum is recorded; with a fragment, a `sha256:`-led
fragment records its remainder as the sha256 checksum, any other fragment is
recorded whole as the md5 checksum. -/
theorem C8_explicit_url_fragment (u pre frag : List Char) :
    ('#' ∉ u → Mamba.parse_explicit_url u = ⟨u, none, none⟩)
    ∧ (u = pre ++ '#' :: frag → '#' ∉ pre →
        Mamba.parse_explicit_url u =
          if Mamba.starts_with frag ("sha256:".toList) then
            ⟨pre, some (frag.drop 7), none⟩
          else
            ⟨pre, none, some frag⟩) := by
  constructor
  · intro h
    simp only [Mamba.parse_explicit_url, dropWhile_hash_of_not_mem u h,
      takeWhile_hash_of_not_mem u h]
  · intro hu hpre
    subst hu
    simp only [Mamba.parse_explicit_url, dropWhile_hash_append pre frag hpre,
      takeWhile_hash_append pre frag hpre]

/-- Witness for C8 on the concrete URL `"a#sha256:bc"`, checking both the
split hypotheses and the recorded sha256. -/
theorem C8_explicit_url_fragment_witness :
    ("a#sha256:bc".toList = "a".toList ++ '#' :: "sha256:bc".toList)
    ∧ '#' ∉ "a".toList
    ∧ Mamba.parse_explicit_url "a#sha256:bc".toList
        = ⟨"a".toList, some "bc".toList, none⟩ := by
  refine ⟨by decide, by decide, ?_⟩
  have h := (C8_explicit_url_fragment "a#sha256:bc".toList "a".toList
      "sha256:bc".toList).2 (by decide) (by decide)
  rw [h]
  decide

/-! Helper lemma characterising the `log_json` classification fold. -/

theorem log_json_fetch_link_eq {α : Type}
    (ge gt : α → String) (l : List α) (acc1 acc2 : List α) :
    l.foldl
      (fun (acc : List α × List α) s =>
        if ¬ Mamba.need_pkg_download ge gt s then
          (acc.1, acc.2 ++ [s])
        else
          (acc.1 ++ [s], acc.2 ++ [s]))
      (acc1, acc2)
    = (acc1 ++ l.filter (fun p => Mamba.need_pkg_download ge gt p), acc2 ++ l) := by
  induction l generalizing acc1 acc2 with
  | nil => simp
  | cons x xs ih =>
    simp only [Bool.not_eq_true] at ih ⊢
    simp only [List.foldl_cons, List.filter_cons]
    cases hn : Mamba.need_pkg_download ge gt x with
    | false => simp [hn, ih, List.append_assoc]
    | true => simp [hn, ih, List.append_assoc]

/-- C9: in the reported JSON, the LINK list is the whole of `to_install`
(independent of whether each package needs downloading now), while the FETCH
list holds exactly those packages of `to_install` for which neither a
validated extracted directory nor a validated tarball exists in any cache
(both query paths empty). -/
theorem C9_link_is_full_fetch_is_needed {α : Type}
    (to_install to_remove : List α) (ge gt : α → String) (p : α) :
    (Mamba.log_json to_install to_remove ge gt).2.1 = to_install
    ∧ (p ∈ (Mamba.log_json to_install to_remove ge gt).1
        ↔ p ∈ to_install ∧ ge p = "" ∧ gt p = "") := by
  have h := log_json_fetch_link_eq ge gt to_install [] []
  constructor
  · simp only [Mamba.log_json, Mamba.log_json_fetch_link, h]
    simp
  · simp only [Mamba.log_json, Mamba.log_json_fetch_link, h]
    simp [List.mem_filter, Mamba.need_pkg_download]

/-- C5: for a package to install, a validated extracted directory suppresses
both download and extract scheduling; lacking it, a validated tarball leads
to a directly scheduled extraction with no download target; lacking both, a
download target is created, its successful completion (HTTP status < 400)
schedules validation, and a `VALID` validation result runs extraction. -/
theorem C5_cache_reuse_pipeline (ec tc : String) (status : Nat) :
    (ec ≠ "" → Mamba.pdet_target ec tc = ⟨false, false, true⟩)
    ∧ (ec = "" → tc ≠ "" → Mamba.pdet_target ec tc = ⟨false, true, false⟩)
    ∧ (ec = "" → tc = "" →
        Mamba.pdet_target ec tc = ⟨true, false, false⟩
        ∧ (status < 400 → Mamba.finalize_callback status = (true, true))
        ∧ Mamba.validate_extract_runs_extract Mamba.VALIDATION_RESULT.VALID = true) := by
  refine ⟨?_, ?_, ?_⟩
  · intro h
    simp [Mamba.pdet_target, h]
  · intro h1 h2
    simp [Mamba.pdet_target, h1, h2]
  · intro h1 h2
    refine ⟨by simp [Mamba.pdet_target, h1, h2], fun hlt => ?_, rfl⟩
    unfold Mamba.finalize_callback
    rw [if_neg (by omega)]

/-- Witness for C5 at the three concrete cache situations (extracted
directory present; tarball only; nothing cached with a successful
HTTP 200 download). -/
theorem C5_cache_reuse_pipeline_witness :
    ((String.mk ['x']) ≠ "" ∧ Mamba.pdet_target (String.mk ['x']) "" = ⟨false, false, true⟩)
    ∧ Mamba.pdet_target "" (String.mk ['y']) = ⟨false, true, false⟩
    ∧ (Mamba.pdet_target "" "" = ⟨true, false, false⟩
       ∧ Mamba.finalize_callback 200 = (true, true)) :=
  ⟨⟨by decide, (C5_cache_reuse_pipeline (String.mk ['x']) "" 200).1 (by decide)⟩,
   (C5_cache_reuse_pipeline "" (String.mk ['y']) 200).2.1 rfl (by decide),
   ((C5_cache_reuse_pipeline "" "" 200).2.2 rfl rfl).1,
   ((C5_cache_reuse_pipeline "" "" 200).2.2 rfl rfl).2.1 (by omega)⟩

/-! Helper lemma characterising the `not_found` accumulator of the
remove-spec loop. -/

theorem remove_specs_scan_not_found (pool : List Nat)
    (spec_match : String → Nat → Bool) (specs : List String)
    (acc1 : List String) (acc2 : List Int) :
    (specs.foldl (Mamba.remove_specs_step pool spec_match) (acc1, acc2)).1
    = acc1 ++ specs.filter
        (fun s => (Mamba.selection_solvables pool spec_match s).isEmpty) := by
  induction specs generalizing acc1 acc2 with
  | nil => simp
  | cons x xs ih =>
    rw [List.foldl_cons, List.filter_cons]
    by_cases h : (Mamba.selection_solvables pool spec_match x).isEmpty = true
    · have hstep : Mamba.remove_specs_step pool spec_match (acc1, acc2) x
          = (acc1 ++ [x], acc2) := by
        simp [Mamba.remove_specs_step, h]
      rw [hstep, ih, if_pos h, List.append_assoc, List.singleton_append]
    · have hstep : Mamba.remove_specs_step pool spec_match (acc1, acc2) x
          = (acc1, acc2 ++ (Mamba.selection_solvables pool spec_match x).map
              (fun el => -(el : Int))) := by
        simp [Mamba.remove_specs_step, h]
      rw [hstep, ih, if_neg h]

/-- C4: when at least one remove spec matches no solvable of the pool,
building the transaction fails with an error whose payload lists exactly the
unmatched specs (in request order), and no removal decision is produced. -/
theorem C4_remove_missing_errors (pool : List Nat)
    (spec_match : String → Nat → Bool) (specs : List String)
    (h : ∃ s ∈ specs, Mamba.selection_solvables pool spec_match s = []) :
    Mamba.mtransaction_remove pool spec_match specs
      = Except.error (specs.filter
          (fun s => (Mamba.selection_solvables pool spec_match s).isEmpty)) := by
  obtain ⟨s, hs, hsel⟩ := h
  have hmem : s ∈ specs.filter
      (fun s => (Mamba.selection_solvables pool spec_match s).isEmpty) :=
    List.mem_filter.mpr ⟨hs, by simp [hsel]⟩
  have hne : specs.filter
      (fun s => (Mamba.selection_solvables pool spec_match s).isEmpty) ≠ [] :=
    List.ne_nil_of_mem hmem
  unfold Mamba.mtransaction_remove Mamba.remove_specs_scan
  rw [remove_specs_scan_not_found pool spec_match specs [] []]
  simp only [List.nil_append]
  rw [if_pos hne]

/-- Witness for C4: a two-solvable pool where the single remove spec matches
nothing, producing the enumerating error. -/
theorem C4_remove_missing_errors_witness :
    (∃ s ∈ [String.mk ['f','o','o']],
      Mamba.selection_solvables [1, 2] (fun _ _ => false) s = [])
    ∧ Mamba.mtransaction_remove [1, 2] (fun _ _ => false) [String.mk ['f','o','o']]
        = Except.error ([String.mk ['f','o','o']].filter
            (fun s => (Mamba.selection_solvables [1, 2] (fun _ _ => false) s).isEmpty)) :=
  ⟨⟨String.mk ['f','o','o'], by decide, rfl⟩,
   C4_remove_missing_errors [1, 2] (fun _ _ => false) [String.mk ['f','o','o']]
     ⟨String.mk ['f','o','o'], by decide, rfl⟩⟩

/-! Helper lemma: the contents of the two rollback stacks after recording a
sequence of operations. -/

theorem foldl_rollback_record (l : List Mamba.TransactionOp)
    (r : Mamba.TransactionRollback) :
    l.foldl Mamba.rollback_record r
      = ⟨(l.filter (fun op => op.kind == Mamba.OpKind.unlink)).reverse
          ++ r.m_unlink_stack,
         (l.filter (fun op => op.kind == Mamba.OpKind.link)).reverse
          ++ r.m_link_stack⟩ := by
  induction l generalizing r with
  | nil => simp
  | cons op ops ih =>
    rw [List.foldl_cons, ih, List.filter_cons, List.filter_cons]
    cases hk : op.kind with
    | link => simp [Mamba.rollback_record, hk]
    | unlink => simp [Mamba.rollback_record, hk]

/-- C1 counterexample: a Change step (unlink old, link new) followed by an
Erase step, interrupted after both executed.  The recorded operations are
`[unlink 0, link 1, unlink 2]`; the code undoes `[link 1, unlink 2,
unlink 0]` (whole link stack first), not the exact reverse
`[unlink 2, link 1, unlink 0]` of a single ordered stack. -/
theorem C1_not_single_stack_counterexample :
    Mamba.rollback_undo_order
        (Mamba.executed_ops [Mamba.Step.change 0 1, Mamba.Step.erase 2])
      ≠ Mamba.single_stack_undo_order
        (Mamba.executed_ops [Mamba.Step.change 0 1, Mamba.Step.erase 2]) := by
  decide

/-- C1 (amended): on interruption the recorded operations are undone from
two per-kind stacks, not one: first every recorded link operation in
reverse order of recording, then every recorded unlink operation in
reverse order of recording. -/
theorem C1_rollback_two_per_kind_stacks (executed : List Mamba.TransactionOp) :
    Mamba.rollback_undo_order executed
      = (executed.filter (fun op => op.kind == Mamba.OpKind.link)).reverse
        ++ (executed.filter (fun op => op.kind == Mamba.OpKind.unlink)).reverse := by
  unfold Mamba.rollback_undo_order Mamba.rollback_run
  rw [foldl_rollback_record]
  simp

/-! Helper lemmas about `conflict_map` membership and the symmetry
invariant maintained by its operations. -/

theorem mem_cm_ins (m : List (Nat × Nat)) (p q : Nat × Nat) :
    q ∈ Mamba.cm_ins m p ↔ q ∈ m ∨ q = p := by
  unfold Mamba.cm_ins
  by_cases hp : p ∈ m
  · simp only [if_pos hp]
    constructor
    · exact Or.inl
    · rintro (h | rfl)
      · exact h
      · exact hp
  · simp [if_neg hp]

theorem mem_cm_add (m : List (Nat × Nat)) (a b : Nat) (q : Nat × Nat) :
    q ∈ Mamba.cm_add m a b ↔ q ∈ m ∨ q = (a, b) ∨ q = (b, a) := by
  unfold Mamba.cm_add
  rw [mem_cm_ins, mem_cm_ins]
  tauto

theorem mem_cm_remove_pair (m : List (Nat × Nat)) (a b : Nat) (q : Nat × Nat) :
    q ∈ Mamba.cm_remove_pair m a b ↔ q ∈ m ∧ q ≠ (a, b) ∧ q ≠ (b, a) := by
  simp [Mamba.cm_remove_pair, List.mem_filter]

theorem mem_cm_remove (m : List (Nat × Nat)) (a : Nat) (q : Nat × Nat) :
    q ∈ Mamba.cm_remove m a ↔ q ∈ m ∧ q.1 ≠ a ∧ q.2 ≠ a := by
  simp [Mamba.cm_remove, List.mem_filter]

theorem cm_run_symm (ops : List Mamba.CmOp) (a b : Nat) :
    ((a, b) ∈ Mamba.cm_run ops ↔ (b, a) ∈ Mamba.cm_run ops) := by
  suffices h : ∀ (m : List (Nat × Nat)), (∀ x y, (x, y) ∈ m ↔ (y, x) ∈ m) →
      ∀ x y, ((x, y) ∈ ops.foldl Mamba.cm_apply m
        ↔ (y, x) ∈ ops.foldl Mamba.cm_apply m) by
    exact h [] (by simp) a b
  induction ops with
  | nil => exact fun m hm => hm
  | cons op rest ih =>
    intro m hm x y
    rw [List.foldl_cons]
    refine ih (Mamba.cm_apply m op) ?_ x y
    intro u v
    cases op with
    | add p q =>
      have huv := hm u v
      simp only [Mamba.cm_apply]
      rw [mem_cm_add, mem_cm_add]
      simp only [Prod.mk.injEq]
      tauto
    | remove_pair p q =>
      have huv := hm u v
      simp only [Mamba.cm_apply]
      rw [mem_cm_remove_pair, mem_cm_remove_pair]
      simp only [ne_eq, Prod.mk.injEq]
      tauto
    | remove_all p =>
      have huv := hm u v
      simp only [Mamba.cm_apply]
      rw [mem_cm_remove, mem_cm_remove]
      simp only [ne_eq]
      tauto

theorem cm_remove_no_conflict (m : List (Nat × Nat)) (a x : Nat) :
    Mamba.cm_has_conflict (Mamba.cm_remove m a) a = false
    ∧ Mamba.cm_in_conflict (Mamba.cm_remove m a) a x = false := by
  constructor
  · unfold Mamba.cm_has_conflict
    rw [List.any_eq_false]
    intro p hp
    rw [mem_cm_remove] at hp
    simp [hp.2.1]
  · unfold Mamba.cm_in_conflict
    simp only [decide_eq_false_iff_not]
    intro hmem
    rw [mem_cm_remove] at hmem
    exact hmem.2.1 rfl

theorem cm_add_self_conflict (m : List (Nat × Nat)) (x : Nat) :
    Mamba.cm_has_conflict (Mamba.cm_add m x x) x = true
    ∧ Mamba.cm_in_conflict (Mamba.cm_add m x x) x x = true := by
  have hmem : (x, x) ∈ Mamba.cm_add m x x :=
    (mem_cm_add m x x (x, x)).mpr (Or.inr (Or.inl rfl))
  constructor
  · unfold Mamba.cm_has_conflict
    rw [List.any_eq_true]
    exact ⟨(x, x), hmem, by simp⟩
  · unfold Mamba.cm_in_conflict
    simpa using hmem

/-- C2: whatever sequence of add/remove operations built the map, the
relation is symmetric (`in_conflict(a,b)` iff `in_conflict(b,a)`); after
`remove(a)` there is no conflict left on `a` (`has_conflict(a)` is false
and `in_conflict(a,x)` is false for every `x`); and a self-conflict
`add(x,x)` is permitted, after which `has_conflict(x)` and
`in_conflict(x,x)` hold. -/
theorem C2_conflict_map_invariants (ops : List Mamba.CmOp) (a b x : Nat) :
    (Mamba.cm_in_conflict (Mamba.cm_run ops) a b
      = Mamba.cm_in_conflict (Mamba.cm_run ops) b a)
    ∧ Mamba.cm_has_conflict (Mamba.cm_remove (Mamba.cm_run ops) a) a = false
    ∧ Mamba.cm_in_conflict (Mamba.cm_remove (Mamba.cm_run ops) a) a x = false
    ∧ Mamba.cm_has_conflict (Mamba.cm_add (Mamba.cm_run ops) x x) x = true
    ∧ Mamba.cm_in_conflict (Mamba.cm_add (Mamba.cm_run ops) x x) x x = true :=
  ⟨decide_eq_decide.mpr (cm_run_symm ops a b),
   (cm_remove_no_conflict (Mamba.cm_run ops) a x).1,
   (cm_remove_no_conflict (Mamba.cm_run ops) a x).2,
   (cm_add_self_conflict (Mamba.cm_run ops) x).1,
   (cm_add_self_conflict (Mamba.cm_run ops) x).2⟩

/-! Helper lemmas about the what-provides index. -/

theorem wp_insert_lookup_same (idx : List (Nat × List Nat)) (d sid : Nat) :
    Mamba.wp_lookup (Mamba.wp_insert idx d sid) d
      = Mamba.wp_lookup idx d ++ [sid] := by
  induction idx with
  | nil => simp [Mamba.wp_insert, Mamba.wp_lookup]
  | cons e rest ih =>
    by_cases he : e.1 = d
    · simp [Mamba.wp_insert, Mamba.wp_lookup, he]
    · simp only [Mamba.wp_insert, if_neg he, Mamba.wp_lookup]
      exact ih

theorem wp_insert_lookup_other (idx : List (Nat × List Nat)) (d d' sid : Nat)
    (hne : d ≠ d') :
    Mamba.wp_lookup (Mamba.wp_insert idx d' sid) d = Mamba.wp_lookup idx d := by
  induction idx with
  | nil => simp [Mamba.wp_insert, Mamba.wp_lookup, Ne.symm hne]
  | cons e rest ih =>
    by_cases he : e.1 = d'
    · have hed : ¬ e.1 = d := by
        rw [he]
        exact Ne.symm hne
      simp [Mamba.wp_insert, Mamba.wp_lookup, he, hed, Ne.symm hne]
    · simp only [Mamba.wp_insert, if_neg he, Mamba.wp_lookup]
      by_cases hed : e.1 = d
      · rw [if_pos hed, if_pos hed]
      · rw [if_neg hed, if_neg hed, ih]

theorem wp_fold_provides (pl : List Nat) (idx : List (Nat × List Nat))
    (sid d : Nat) (hnd : pl.Nodup) :
    Mamba.wp_lookup (pl.foldl (fun i d' => Mamba.wp_insert i d' sid) idx) d
      = Mamba.wp_lookup idx d ++ (if d ∈ pl then [sid] else []) := by
  induction pl generalizing idx with
  | nil => simp
  | cons d' pl' ih =>
    rw [List.foldl_cons]
    rcases List.nodup_cons.mp hnd with ⟨hd', hnd'⟩
    by_cases hdd : d = d'
    · subst hdd
      rw [ih (Mamba.wp_insert idx d sid) hnd', wp_insert_lookup_same]
      have hnotin : d ∉ pl' := hd'
      simp [hnotin]
    · rw [ih (Mamba.wp_insert idx d' sid) hnd',
        wp_insert_lookup_other idx d d' sid hdd]
      simp [hdd]

theorem build_whatprovides_fold (solvs : List Mamba.SolvableRec)
    (h : ∀ s ∈ solvs, s.provides.Nodup) (idx : List (Nat × List Nat)) (d : Nat) :
    Mamba.wp_lookup
      (solvs.foldl
        (fun idx s => s.provides.foldl (fun i d' => Mamba.wp_insert i d' s.sid) idx)
        idx) d
    = Mamba.wp_lookup idx d
      ++ (solvs.filter (fun s => decide (d ∈ s.provides))).map Mamba.SolvableRec.sid := by
  induction solvs generalizing idx with
  | nil => simp
  | cons s rest ih =>
    rw [List.foldl_cons, List.filter_cons]
    have hs : s.provides.Nodup := h s (by simp)
    have hrest : ∀ t ∈ rest, t.provides.Nodup := fun t ht => h t (by simp [ht])
    rw [ih hrest, wp_fold_provides s.provides idx s.sid d hs]
    by_cases hd : d ∈ s.provides
    · simp [hd]
    · simp [hd]

/-- C6: iterating the what-provides index for a dependency id before
`create_whatprovides` has run raises an error; after `create_whatprovides`,
iterating yields exactly the solvables providing that dependency id, in
pool order. -/
theorem C6_whatprovides_requires_index (p : Mamba.ObjPool) (dep : Nat)
    (hidx : p.whatprovides_index = none)
    (hnd : ∀ s ∈ p.solvables, s.provides.Nodup) :
    Mamba.for_each_whatprovides_id p dep
      = Except.error "Whatprovides index is not created."
    ∧ Mamba.for_each_whatprovides_id (Mamba.create_whatprovides p) dep
      = Except.ok ((p.solvables.filter (fun s => decide (dep ∈ s.provides))).map
          Mamba.SolvableRec.sid) := by
  constructor
  · unfold Mamba.for_each_whatprovides_id
    rw [hidx]
  · show Except.ok (Mamba.wp_lookup (Mamba.build_whatprovides p.solvables) dep) = _
    unfold Mamba.build_whatprovides
    rw [build_whatprovides_fold p.solvables hnd [] dep]
    simp [Mamba.wp_lookup]

/-- Witness for C6 mirroring the test: two solvables with ids 1 and 2
self-providing dependency ids 10 and 20 respectively; the query for dep 10
yields exactly solvable 1. -/
theorem C6_whatprovides_requires_index_witness :
    (Mamba.ObjPool.mk [⟨1, [10]⟩, ⟨2, [20]⟩] none).whatprovides_index = none
    ∧ (∀ s ∈ (Mamba.ObjPool.mk [⟨1, [10]⟩, ⟨2, [20]⟩] none).solvables,
        s.provides.Nodup)
    ∧ Mamba.for_each_whatprovides_id
        (Mamba.ObjPool.mk [⟨1, [10]⟩, ⟨2, [20]⟩] none) 10
      = Except.error "Whatprovides index is not created."
    ∧ Mamba.for_each_whatprovides_id
        (Mamba.create_whatprovides (Mamba.ObjPool.mk [⟨1, [10]⟩, ⟨2, [20]⟩] none)) 10
      = Except.ok [1] := by
  refine ⟨rfl, by decide, ?_, ?_⟩
  · exact (C6_whatprovides_requires_index
      (Mamba.ObjPool.mk [⟨1, [10]⟩, ⟨2, [20]⟩] none) 10 rfl (by decide)).1
  · have h := (C6_whatprovides_requires_index
      (Mamba.ObjPool.mk [⟨1, [10]⟩, ⟨2, [20]⟩] none) 10 rfl (by decide)).2
    rw [h]
    rfl

/-! Helper lemmas for the topological-sort pass. -/

theorem pick_min_by_name_mem (l : List Mamba.PkgRecord) (p : Mamba.PkgRecord)
    (h : Mamba.pick_min_by_name l = some p) : p ∈ l := by
  induction l with
  | nil => cases h
  | cons q rest ih =>
    unfold Mamba.pick_min_by_name at h
    split at h
    · injection h with h2
      exact h2 ▸ List.mem_cons_self q rest
    · rename_i r hm
      split_ifs at h
      · injection h with h2
        exact h2 ▸ List.mem_cons_self q rest
      · injection h with h2
        exact List.mem_cons_of_mem q (ih (h2 ▸ hm))

theorem pick_min_by_name_of_ne_nil (l : List Mamba.PkgRecord) (h : l ≠ []) :
    ∃ p, Mamba.pick_min_by_name l = some p ∧ p ∈ l := by
  cases l with
  | nil => exact absurd rfl h
  | cons q rest =>
    cases hm : Mamba.pick_min_by_name rest with
    | none =>
      exact ⟨q, by simp [Mamba.pick_min_by_name, hm], List.mem_cons_self q rest⟩
    | some r =>
      by_cases hle : q.name ≤ r.name
      · exact ⟨q, by simp [Mamba.pick_min_by_name, hm, hle], List.mem_cons_self q rest⟩
      · refine ⟨r, by simp [Mamba.pick_min_by_name, hm, hle], ?_⟩
        exact List.mem_cons_of_mem q (pick_min_by_name_mem rest r hm)

theorem dep_ready_iff (recs : List Mamba.PkgRecord) (emitted : List String)
    (p : Mamba.PkgRecord) :
    Mamba.dep_ready recs emitted p = true
      ↔ ∀ dep ∈ p.depends, Mamba.ms_name dep ∈ Mamba.pkg_names recs →
          Mamba.ms_name dep ∈ emitted := by
  unfold Mamba.dep_ready
  rw [List.all_eq_true]
  simp only [decide_eq_true_eq]

theorem topo_forward_append (recs : List Mamba.PkgRecord) (seen : List String)
    (l1 l2 : List Mamba.PkgRecord) :
    Mamba.topo_forward recs seen (l1 ++ l2)
      = (Mamba.topo_forward recs seen l1
          && Mamba.topo_forward recs (seen ++ Mamba.pkg_names l1) l2) := by
  induction l1 generalizing seen with
  | nil => simp [Mamba.topo_forward, Mamba.pkg_names]
  | cons p rest ih =>
    simp only [List.cons_append, Mamba.topo_forward, Mamba.pkg_names, List.map_cons,
      List.append_eq]
    rw [ih (seen ++ [p.name])]
    simp [Mamba.pkg_names, List.append_assoc, Bool.and_assoc]

theorem topo_go_spec (recs : List Mamba.PkgRecord)
    (hmin : ∀ S ∈ recs.sublists, S ≠ [] → ∃ p ∈ S, ∀ dep ∈ p.depends,
        Mamba.ms_name dep ∈ Mamba.pkg_names recs →
          Mamba.ms_name dep ∉ Mamba.pkg_names S) :
    ∀ (n : Nat) (emitted remaining : List Mamba.PkgRecord),
      remaining.length = n →
      remaining.Sublist recs →
      (emitted ++ remaining).Perm recs →
      Mamba.topo_forward recs [] emitted = true →
      Mamba.is_topo_order (Mamba.topo_go recs n emitted remaining) recs := by
  intro n
  induction n with
  | zero =>
    intro emitted remaining hlen hsub hperm htopo
    have hrem : remaining = [] := List.length_eq_zero.mp hlen
    subst hrem
    exact ⟨by simpa using hperm, htopo⟩
  | succ n ih =>
    intro emitted remaining hlen hsub hperm htopo
    have hne : remaining ≠ [] := by
      intro h
      rw [h] at hlen
      cases hlen
    obtain ⟨p₀, hp₀mem, hp₀⟩ := hmin remaining (List.mem_sublists.mpr hsub) hne
    have hp₀ready : Mamba.dep_ready recs (Mamba.pkg_names emitted) p₀ = true := by
      rw [dep_ready_iff]
      intro dep hdep hinst
      have hnotrem := hp₀ dep hdep hinst
      have hmemall : Mamba.ms_name dep ∈ Mamba.pkg_names (emitted ++ remaining) := by
        unfold Mamba.pkg_names at hinst ⊢
        exact ((hperm.map Mamba.PkgRecord.name).mem_iff).mpr hinst
      unfold Mamba.pkg_names at hmemall hnotrem ⊢
      rw [List.map_append] at hmemall
      rcases List.mem_append.mp hmemall with h | h
      · exact h
      · exact absurd h hnotrem
    have hfilter_mem :
        p₀ ∈ remaining.filter (Mamba.dep_ready recs (Mamba.pkg_names emitted)) :=
      List.mem_filter.mpr ⟨hp₀mem, hp₀ready⟩
    obtain ⟨p, hpick, hpmem_filter⟩ :=
      pick_min_by_name_of_ne_nil _ (List.ne_nil_of_mem hfilter_mem)
    have hpmem : p ∈ remaining := (List.mem_filter.mp hpmem_filter).1
    have hpready : Mamba.dep_ready recs (Mamba.pkg_names emitted) p = true :=
      (List.mem_filter.mp hpmem_filter).2
    have hstep : Mamba.topo_go recs (n + 1) emitted remaining
        = Mamba.topo_go recs n (emitted ++ [p]) (remaining.erase p) := by
      conv_lhs => rw [Mamba.topo_go.eq_def]
      simp only [hpick]
    rw [hstep]
    apply ih
    · rw [List.length_erase_of_mem hpmem, hlen]
      omega
    · exact List.Sublist.trans (List.erase_sublist p remaining) hsub
    · have h1 : remaining.Perm (p :: remaining.erase p) := List.perm_cons_erase hpmem
      have h2 : ((emitted ++ [p]) ++ remaining.erase p)
          = emitted ++ (p :: remaining.erase p) := by
        simp
      rw [h2]
      exact ((h1.symm.append_left emitted).trans hperm : _)
    · rw [topo_forward_append]
      simp [htopo, Mamba.topo_forward, hpready]

/-- C7 counterexample: two installed packages `a` and `b` each depending on
the other.  The returned sequence is not a topological order of the two
packages (none could be emitted after its dependency), refuting the claim
for arbitrary PrefixData. -/
theorem C7_cycle_counterexample :
    ¬ Mamba.is_topo_order
        (Mamba.sorted_records [⟨"a", ["b"]⟩, ⟨"b", ["a"]⟩])
        [⟨"a", ["b"]⟩, ⟨"b", ["a"]⟩] := by
  decide

/-- C7 (amended): for every PrefixData whose installed dependency graph is
acyclic (every non-empty subset of the records contains a record none of
whose installed dependencies lies in the subset), `sorted_records` returns
a topological order of the installed packages: every package appears after
all packages named in its `depends` list that are themselves installed. -/
theorem C7_sorted_records_topological (recs : List Mamba.PkgRecord)
    (hmin : ∀ S ∈ recs.sublists, S ≠ [] → ∃ p ∈ S, ∀ dep ∈ p.depends,
        Mamba.ms_name dep ∈ Mamba.pkg_names recs →
          Mamba.ms_name dep ∉ Mamba.pkg_names S) :
    Mamba.is_topo_order (Mamba.sorted_records recs) recs := by
  unfold Mamba.sorted_records
  exact topo_go_spec recs hmin recs.length [] recs rfl (List.Sublist.refl recs)
    (by simp) rfl

/-- Witness for C7 on the acyclic prefix `a → b`: the hypothesis holds and
the returned order is topological. -/
theorem C7_sorted_records_topological_witness :
    (∀ S ∈ ([⟨"a", ["b"]⟩, ⟨"b", []⟩] : List Mamba.PkgRecord).sublists,
        S ≠ [] → ∃ p ∈ S, ∀ dep ∈ p.depends,
          Mamba.ms_name dep ∈ Mamba.pkg_names [⟨"a", ["b"]⟩, ⟨"b", []⟩] →
            Mamba.ms_name dep ∉ Mamba.pkg_names S)
    ∧ Mamba.is_topo_order (Mamba.sorted_records [⟨"a", ["b"]⟩, ⟨"b", []⟩])
        [⟨"a", ["b"]⟩, ⟨"b", []⟩] :=
  ⟨by decide, C7_sorted_records_topological [⟨"a", ["b"]⟩, ⟨"b", []⟩] (by decide)⟩

/-- Sanity check of the modelled `MatchSpec` name extraction: the optional
`channel::` prefix is dropped and version, build and bracket suffixes are
cut off. -/
theorem ms_name_handles_channel_and_brackets :
    Mamba.ms_name "conda-forge::numpy >=1.17" = "numpy"
    ∧ Mamba.ms_name "numpy >=1.17,<2" = "numpy"
    ∧ Mamba.ms_name "numpy[version=1.0]" = "numpy"
    ∧ Mamba.ms_name "numpy" = "numpy" := by
  refine ⟨?_, ?_, ?_, ?_⟩ <;> rfl
